import Mathlib

/-
Verification of the covariance-kernel assembly engine in
ase/optimize/activelearning/gpfp/kernel.py.

Shallow embedding conventions:
  * Python floats are modelled as real numbers (ℝ); `np.exp` is `Real.exp`
    and `np.linalg.norm` is the square root of the sum of squares.
  * A `(D+1) × (D+1)` pair block is indexed by `Unit ⊕ Fin D`:
    `Sum.inl ()` is row/column 0 and `Sum.inr j` is row/column `1 + j`.
    For the fingerprint kernels `D = 3 * m` (m atoms, 3 coordinates) and a
    block is indexed by `Unit ⊕ (Fin m × Fin 3)`: `Sum.inr (i, a)` is
    row/column `1 + 3 * i + a` (the layout `hessian.swapaxes(1,2).reshape`
    produces).
  * The full matrix of `n` points is indexed by `Fin n × blockindex`:
    `(i, b)` is row `i * (D + 1) + offset b`.
  * Object attributes that a method may find unset (`self.weight`, `self.l`,
    `self.params`, `self.D`) are `Option` fields of an explicit state
    record; methods that can raise return `Except PyErr _`.
  * The fingerprint ("descriptor") objects are external collaborators: they
    are modelled as a point record (opaque data plus the parameter
    dictionary that `update` rewrites) together with a bundle of arbitrary
    hook functions (`FPHooks`), one per method of the capability contract.
  * Parameter dictionaries carry rational values so that the dictionary
    operations stay decidable; they are cast to ℝ where arithmetic happens.
  * The MPI communicator `world` is modelled by its observable effect: a
    worker of rank r among W computes the entries round-robin assigned to
    it (others keep the junk or zero initial value of `np.empty` or
    `np.zeros`), and the broadcast loop replaces every entry by the value
    the owning rank computed.
-/

namespace ASEGpfp

/-- Python exception classes that the methods of kernel.py can raise. -/
inductive PyErr
  | attributeError
  | typeError
  | indexError
  | valueError
  | assertionError
deriving DecidableEq

/-- A Python runtime value, as far as `SE_kernel.dK_dl` needs: a float or a
bound method object (`self.kernel` without the call parentheses). -/
inductive PyVal
  | num (x : ℝ)
  | method (name : String)

/-- Python `*`: multiplying a method object by a float raises `TypeError`. -/
noncomputable def pyMul : PyVal → PyVal → Except PyErr PyVal
  | .num a, .num b => .ok (.num (a * b))
  | _, _ => .error .typeError

/-- Python `/`: dividing a method object, or by a method object, raises
`TypeError`. -/
noncomputable def pyDiv : PyVal → PyVal → Except PyErr PyVal
  | .num a, .num b => .ok (.num (a / b))
  | _, _ => .error .typeError

/-! ### SE_kernel (squared exponential kernel without derivatives) -/

/-- The attributes of an `SE_kernel` instance. `__init__` sets neither, so
both start absent; `set_params([weight, l])` fills them. -/
structure SEState where
  weight : Option ℝ
  l : Option ℝ

/-- State after `SE_kernel()` (its `__init__` sets no attribute). -/
def SE_kernel.initState : SEState := ⟨none, none⟩

/-- `SE_kernel.squared_distance`:
`np.linalg.norm(x1 - x2) ** 2 / self.l ** 2`. -/
noncomputable def squared_distance (l : ℝ) {D : ℕ} (x1 x2 : Fin D → ℝ) : ℝ :=
  Real.sqrt (∑ i, (x1 i - x2 i) ^ 2) ^ 2 / l ^ 2

/-- `SE_kernel.kernel`, guarded by attribute lookup: `self.weight ** 2` is
evaluated before `self.squared_distance` reads `self.l`, so a missing weight
raises first. -/
noncomputable def SE_kernel.kernelE (s : SEState) {D : ℕ} (x1 x2 : Fin D → ℝ) :
    Except PyErr ℝ :=
  match s.weight with
  | none => .error .attributeError
  | some w =>
    match s.l with
    | none => .error .attributeError
    | some l => .ok (w ^ 2 * Real.exp (-(1 / 2) * squared_distance l x1 x2))

/-- `SE_kernel.dK_dl`, line for line:
`return self.kernel * la.norm(x1 - x2) ** 2 / self.l ** 3`.
`self.kernel` is the bound method object itself (no call parentheses), so
the first `*` multiplies a method by a float; `self.l` is only read
afterwards. -/
noncomputable def SE_kernel.dK_dlE (s : SEState) {D : ℕ} (x1 x2 : Fin D → ℝ) :
    Except PyErr PyVal :=
  match pyMul (.method "kernel") (.num (Real.sqrt (∑ i, (x1 i - x2 i) ^ 2) ^ 2)) with
  | .error e => .error e
  | .ok p =>
    match s.l with
    | none => .error .attributeError
    | some l => pyDiv p (.num (l ^ 3))

/-! ### SquaredExponential (squared exponential kernel with derivatives) -/

/-- Index type of a `(D+1) × (D+1)` pair block: `Sum.inl ()` is index 0,
`Sum.inr j` is index `1 + j`. -/
abbrev SIdx (D : ℕ) := Unit ⊕ Fin D

namespace SqExp

/-- `SquaredExponential.kernel_function`:
`self.weight ** 2 * np.exp(-0.5 * self.squared_distance(x1, x2))`. -/
noncomputable def kernel_function (weight l : ℝ) {D : ℕ} (x1 x2 : Fin D → ℝ) : ℝ :=
  weight ^ 2 * Real.exp (-(1 / 2) * squared_distance l x1 x2)

/-- `SquaredExponential.kernel_function_gradient`: the prefactor
`(x1 - x2) / self.l ** 2` (the commented-out multiplication by the kernel
value is not performed). -/
noncomputable def kernel_function_gradient (l : ℝ) {D : ℕ} (x1 x2 : Fin D → ℝ) : Fin D → ℝ :=
  fun i => (x1 i - x2 i) / l ^ 2

/-- The block `K` built by `SquaredExponential.kernel` on lines 132-138,
before the final elementwise multiplication by `kernel_function` on line 141:
`K = np.identity(D + 1)`, `K[0, 1:] = kernel_function_gradient(x1, x2)`,
`K[1:, 0] = -K[0, 1:]`,
`K[1:, 1:] = (identity - outer(x1 - x2, x1 - x2) / l ** 2) / l ** 2`. -/
noncomputable def kernelPre (l : ℝ) {D : ℕ} (x1 x2 : Fin D → ℝ) :
    Matrix (SIdx D) (SIdx D) ℝ :=
  fun p q =>
    match p, q with
    | .inl _, .inl _ => 1
    | .inl _, .inr j => kernel_function_gradient l x1 x2 j
    | .inr i, .inl _ => -(kernel_function_gradient l x1 x2 i)
    | .inr i, .inr j =>
        ((if i = j then (1 : ℝ) else 0) - (x1 i - x2 i) * (x1 j - x2 j) / l ^ 2) / l ^ 2

/-- `SquaredExponential.kernel`: the assembled block elementwise multiplied
by the scalar kernel value (`return K * self.kernel_function(x1, x2)`). -/
noncomputable def kernel (weight l : ℝ) {D : ℕ} (x1 x2 : Fin D → ℝ) :
    Matrix (SIdx D) (SIdx D) ℝ :=
  fun p q => kernelPre l x1 x2 p q * kernel_function weight l x1 x2

/-- `SquaredExponential.kernel_matrix`: allocate `identity(n * (D + 1))`,
fill block `(i, j)` with `kernel(X[i], X[j])` and block `(j, i)` with its
transpose for `i < j`, and block `(i, i)` with `kernel(X[i], X[i])`.
Every entry is written exactly once, so the matrix is the function below. -/
noncomputable def kernel_matrix (weight l : ℝ) {n D : ℕ} (X : Fin n → Fin D → ℝ) :
    Matrix (Fin n × SIdx D) (Fin n × SIdx D) ℝ :=
  fun p q =>
    if p.1 = q.1 then kernel weight l (X p.1) (X p.1) p.2 q.2
    else if p.1 < q.1 then kernel weight l (X p.1) (X q.1) p.2 q.2
    else kernel weight l (X q.1) (X p.1) q.2 p.2

/-- `Kernel.K`, with `self.kernel` resolved to `SquaredExponential.kernel`:
`np.block([[self.kernel(x1, x2) for x2 in X2] for x1 in X1])`, one block per
ordered pair. -/
noncomputable def K (weight l : ℝ) {n1 n2 D : ℕ}
    (X1 : Fin n1 → Fin D → ℝ) (X2 : Fin n2 → Fin D → ℝ) :
    Matrix (Fin n1 × SIdx D) (Fin n2 × SIdx D) ℝ :=
  fun p q => kernel weight l (X1 p.1) (X2 q.1) p.2 q.2

/-- `SquaredExponential.dK_dweight`: `self.K(X, X) * 2 / self.weight`. -/
noncomputable def dK_dweight (weight l : ℝ) {n D : ℕ} (X : Fin n → Fin D → ℝ) :
    Matrix (Fin n × SIdx D) (Fin n × SIdx D) ℝ :=
  fun p q => K weight l X X p q * 2 / weight

end SqExp

/-- The attributes of a `SquaredExponential` instance: `__init__` stores the
`dimensionality` argument (defaulting to `None`) in `self.D` and sets
neither `weight` nor `l`. `D = none` models the attribute holding `None`. -/
structure SqExpState where
  D : Option ℕ
  weight : Option ℝ
  l : Option ℝ

/-- State after `SquaredExponential(dimensionality)`. -/
def SquaredExponential.initState (dimensionality : Option ℕ) : SqExpState :=
  ⟨dimensionality, none, none⟩

/-- `SquaredExponential.kernel` guarded by attribute lookup, in source
order: `np.identity(self.D + 1)` raises `TypeError` when `self.D` is `None`;
`kernel_function_gradient` then reads `self.l`; assigning the length-`d`
gradient into the length-`self.D` slice `K[0, 1:]` raises `ValueError` when
the sizes differ; `kernel_function` reads `self.weight` last. -/
noncomputable def SqExp.kernelE (s : SqExpState) {d : ℕ} (x1 x2 : Fin d → ℝ) :
    Except PyErr (Matrix (SIdx d) (SIdx d) ℝ) :=
  match s.D with
  | none => .error .typeError
  | some D =>
    match s.l with
    | none => .error .attributeError
    | some l =>
      if D = d then
        match s.weight with
        | none => .error .attributeError
        | some w => .ok (SqExp.kernel w l x1 x2)
      else .error .valueError

/-! ### FPKernel (fingerprint kernel with forces) -/

/-- A parameter dictionary: association list in insertion order, later
`d[k] = v` updates an existing key in place or appends a new one.
Values are rationals so that lookups and comparisons stay decidable. -/
abbrev Dict := List (String × ℚ)

/-- Python `d[k] = v` on a dict: overwrite the key where it stands, or
append it. -/
def dictSet : Dict → String → ℚ → Dict
  | [], k, v => [(k, v)]
  | (k0, v0) :: rest, k, v =>
      if k0 = k then (k, v) :: rest else (k0, v0) :: dictSet rest k v

/-- Python `d.get(k)` on a dict: the first (unique) binding of the key. -/
def dictGet : Dict → String → Option ℚ
  | [], _ => none
  | (k0, v0) :: rest, k => if k = k0 then some v0 else dictGet rest k

/-- A fingerprint (descriptor) object: opaque internal data of type `σ`
plus the parameter dictionary that `update(params)` rewrites and that
`set_fp_params` compares against the kernel's. -/
structure FPoint (σ : Type) where
  data : σ
  params : Dict

/-- The capability contract of the fingerprint collaborator (spec section 6),
for configurations of `m` atoms: one arbitrary function per method.
`kernel` receives the point it is called on plus both call arguments,
mirroring `x1.kernel(x1, x2)`. A `3 × 3` hessian block at an atom pair is
given entrywise. -/
structure FPHooks (m : ℕ) (σ : Type) where
  kernel : FPoint σ → FPoint σ → FPoint σ → ℝ
  kernel_gradient : FPoint σ → FPoint σ → Fin m → Fin 3 → ℝ
  kernel_hessian : FPoint σ → FPoint σ → Fin m → Fin m → Fin 3 → Fin 3 → ℝ
  dk_dl : FPoint σ → FPoint σ → ℝ
  d_dl_dk_drm : FPoint σ → FPoint σ → Fin m → Fin 3 → ℝ
  d_dl_dk_drm_drn : FPoint σ → FPoint σ → Fin m → Fin m → Fin 3 → Fin 3 → ℝ
  dk_dDelta : FPoint σ → FPoint σ → ℝ
  dk_drm_dDelta : FPoint σ → FPoint σ → Fin m → Fin 3 → ℝ
  dk_drm_drn_dDelta : FPoint σ → FPoint σ → Fin m → Fin m → Fin 3 → Fin 3 → ℝ

/-- Index type of a fingerprint pair block: `Sum.inl ()` is row/column 0,
`Sum.inr (i, a)` is row/column `1 + 3 * i + a` (atom `i`, coordinate `a`). -/
abbrev BIdx (m : ℕ) := Unit ⊕ (Fin m × Fin 3)

/-- The attributes of an `FPKernel` (or `FPKernelNoforces`) instance.
`__init__` sets none of them. `params` is filled by the dict-based
`set_params`; `weight` would be the attribute `self.weight`, which the
dict-based `set_params` never writes; `D` is written by `kernel_matrix`. -/
structure FPState where
  params : Option Dict
  weight : Option ℚ
  D : Option ℕ

/-- State after `FPKernel()` / `FPKernelNoforces()`. -/
def FPKernel.initState : FPState := ⟨none, none, none⟩

/-- `FPKernel.set_params`: create `self.params` on first call, then merge
the argument dictionary key by key (`for p in params: self.params[p] = params[p]`). -/
def FPKernel.set_params (s : FPState) (params : Dict) : FPState :=
  { s with
    params := some (params.foldl (fun acc kv => dictSet acc kv.1 kv.2) (s.params.getD [])) }

/-- `FPKernel.set_fp_params`: `if self.params != x.params: x.update(self.params)`.
`update` applies the kernel's dictionary to the point (spec section 6). -/
def set_fp_params {σ : Type} (ps : Dict) (x : FPoint σ) : FPoint σ :=
  if ps ≠ x.params then { x with params := ps } else x

namespace FPK

/-- Worker `rank`'s local gradient array in `FPKernel.kernel_function_gradient`,
after the compute loop and before the broadcasts: row `i` holds the hook
value if `i % W == rank` (round-robin ownership), else the uninitialised
content of `np.empty` (the worker's `junk`). -/
noncomputable def gradientsLocal {m : ℕ} {σ : Type} (H : FPHooks m σ) (W rank : ℕ)
    (junk : Fin m → Fin 3 → ℝ) (x1 x2 : FPoint σ) : Fin m → Fin 3 → ℝ :=
  fun i a => if i.1 % W = rank then H.kernel_gradient x1 x2 i a else junk i a

/-- `FPKernel.kernel_function_gradient` after the broadcast loop
(`world.broadcast(gradients[i], i % world.size)`): every worker's row `i`
is replaced by the row computed by the owning rank `i % W`, whose local
array carried that rank's own junk. The result is what every rank holds. -/
noncomputable def kernel_function_gradient {m : ℕ} {σ : Type} (H : FPHooks m σ) (W : ℕ)
    (junk : ℕ → Fin m → Fin 3 → ℝ) (x1 x2 : FPoint σ) : Fin m → Fin 3 → ℝ :=
  fun i a => gradientsLocal H W (i.1 % W) (junk (i.1 % W)) x1 x2 i a

/-- Worker `rank`'s local hessian array in `FPKernel.kernel_function_hessian`
before the broadcasts: the `(i, j)` block holds the hook value if
`(i * n + j) % W == rank` (with `n = len(x1.atoms) = m`), else the zeros of
`np.zeros`. -/
noncomputable def hessianLocal {m : ℕ} {σ : Type} (H : FPHooks m σ) (W rank : ℕ)
    (x1 x2 : FPoint σ) : Fin m → Fin m → Fin 3 → Fin 3 → ℝ :=
  fun i j a b => if (i.1 * m + j.1) % W = rank then H.kernel_hessian x1 x2 i j a b else 0

/-- `FPKernel.kernel_function_hessian` after the broadcast loop: block
`(i, j)` comes from rank `(i * m + j) % W`. The `swapaxes(1,2).reshape`
flattening to `3m × 3m` is the `(Fin m × Fin 3)` product indexing. -/
noncomputable def kernel_function_hessian {m : ℕ} {σ : Type} (H : FPHooks m σ) (W : ℕ)
    (x1 x2 : FPoint σ) : Fin m → Fin m → Fin 3 → Fin 3 → ℝ :=
  fun i j a b => hessianLocal H W ((i.1 * m + j.1) % W) x1 x2 i j a b

/-- The block assembled by `FPKernel.kernel` once `self.D` and the weight
parameter check out: `K[0,0] = x1.kernel(x1, x2)`,
`K[1:,0] = kernel_function_gradient(x1, x2)`,
`K[0,1:] = kernel_function_gradient(x2, x1)`,
`K[1:,1:] = kernel_function_hessian(x1, x2)`, all times
`self.params.get('weight') ** 2`. -/
noncomputable def kernelBlock {m : ℕ} {σ : Type} (H : FPHooks m σ) (W : ℕ)
    (junk : ℕ → Fin m → Fin 3 → ℝ) (w : ℚ) (x1 x2 : FPoint σ) :
    Matrix (BIdx m) (BIdx m) ℝ :=
  fun p q =>
    (match p, q with
     | .inl _, .inl _ => H.kernel x1 x1 x2
     | .inr ia, .inl _ => kernel_function_gradient H W junk x1 x2 ia.1 ia.2
     | .inl _, .inr ia => kernel_function_gradient H W junk x2 x1 ia.1 ia.2
     | .inr ia, .inr jb => kernel_function_hessian H W x1 x2 ia.1 jb.1 ia.2 jb.2)
    * (w : ℝ) ^ 2

/-- `FPKernel.kernel` with its attribute accesses in source order:
`np.identity(self.D + 1)` raises `AttributeError` when `self.D` was never
assigned; assigning the `3m`-gradient into `K[1:, 0]` raises `ValueError`
when `self.D` disagrees with `3 * m`; `self.params.get('weight')` raises
`AttributeError` when `self.params` was never assigned and `TypeError`
(`None ** 2`) when the key is missing. -/
noncomputable def kernelE {m : ℕ} {σ : Type} (H : FPHooks m σ) (W : ℕ)
    (junk : ℕ → Fin m → Fin 3 → ℝ) (s : FPState) (x1 x2 : FPoint σ) :
    Except PyErr (Matrix (BIdx m) (BIdx m) ℝ) :=
  match s.D with
  | none => .error .attributeError
  | some D =>
    if D = 3 * m then
      match s.params with
      | none => .error .attributeError
      | some ps =>
        match dictGet ps "weight" with
        | none => .error .typeError
        | some w => .ok (kernelBlock H W junk w x1 x2)
    else .error .valueError

/-- `FPKernel.kernel_matrix`: `D = len(X[0].atoms) * 3` raises `IndexError`
on an empty list; the `set_fp_params` loop reads `self.params`; the first
`self.kernel` call needs the `weight` key; then the upper triangle is
filled pairwise, mirrored by block transpose, and the diagonal gets the
self blocks. `world.broadcast(K, 0)` hands every rank the (identical)
matrix rank 0 assembled. -/
noncomputable def kernel_matrixE {m n : ℕ} {σ : Type} (H : FPHooks m σ) (W : ℕ)
    (junk : ℕ → Fin m → Fin 3 → ℝ) (s : FPState) (X : Fin n → FPoint σ) :
    Except PyErr (Matrix (Fin n × BIdx m) (Fin n × BIdx m) ℝ) :=
  if n = 0 then .error .indexError
  else
    match s.params with
    | none => .error .attributeError
    | some ps =>
      match dictGet ps "weight" with
      | none => .error .typeError
      | some w =>
        .ok (fun p q =>
          if p.1 = q.1 then
            kernelBlock H W junk w (set_fp_params ps (X p.1)) (set_fp_params ps (X p.1)) p.2 q.2
          else if p.1 < q.1 then
            kernelBlock H W junk w (set_fp_params ps (X p.1)) (set_fp_params ps (X q.1)) p.2 q.2
          else
            kernelBlock H W junk w (set_fp_params ps (X q.1)) (set_fp_params ps (X p.1)) q.2 p.2)

/-- `FPKernel.dK_dweight`: `self.kernel_matrix(X) * 2 / self.weight`.
`kernel_matrix(X)` is evaluated first; then the attribute `self.weight` is
read, which the dict-based `set_params` never assigns. -/
noncomputable def dK_dweightE {m n : ℕ} {σ : Type} (H : FPHooks m σ) (W : ℕ)
    (junk : ℕ → Fin m → Fin 3 → ℝ) (s : FPState) (X : Fin n → FPoint σ) :
    Except PyErr (Matrix (Fin n × BIdx m) (Fin n × BIdx m) ℝ) :=
  match kernel_matrixE H W junk s X with
  | .error e => .error e
  | .ok K =>
    match s.weight with
    | none => .error .attributeError
    | some w => .ok (fun p q => K p q * 2 / (w : ℝ))

/-- `FPKernel.dK_dl_matrix`: `matrix[0,0] = x1.dk_dl(x2)`,
`matrix[1:,0] = dK_dl_j(x1, x2)`, `matrix[0,1:] = dK_dl_j(x2, x1)`,
`matrix[1:,1:] = dK_dl_h(x1, x2)`, times `self.weight ** 2`; the `j` and
`h` helpers fill their arrays atom by atom from the descriptor hooks,
with no worker partitioning. -/
noncomputable def dK_dl_matrix {m : ℕ} {σ : Type} (H : FPHooks m σ) (w : ℚ)
    (x1 x2 : FPoint σ) : Matrix (BIdx m) (BIdx m) ℝ :=
  fun p q =>
    (match p, q with
     | .inl _, .inl _ => H.dk_dl x1 x2
     | .inr ia, .inl _ => H.d_dl_dk_drm x1 x2 ia.1 ia.2
     | .inl _, .inr ia => H.d_dl_dk_drm x2 x1 ia.1 ia.2
     | .inr ia, .inr jb => H.d_dl_dk_drm_drn x1 x2 ia.1 jb.1 ia.2 jb.2)
    * (w : ℝ) ^ 2

/-- `FPKernel.dK_dl`: `np.block` of `dK_dl_matrix(x1, x2)` over every
ordered pair. `np.ndarray([self.D + 1, self.D + 1])` reads `self.D`
(`AttributeError` if never assigned, `ValueError` if it disagrees with the
`3m`-sized rows assigned into it) and the final scaling reads `self.weight`. -/
noncomputable def dK_dlE {m n : ℕ} {σ : Type} (H : FPHooks m σ) (s : FPState)
    (X : Fin n → FPoint σ) :
    Except PyErr (Matrix (Fin n × BIdx m) (Fin n × BIdx m) ℝ) :=
  match s.D with
  | none => .error .attributeError
  | some D =>
    if D = 3 * m then
      match s.weight with
      | none => .error .attributeError
      | some w => .ok (fun p q => dK_dl_matrix H w (X p.1) (X q.1) p.2 q.2)
    else .error .valueError

/-- `FPKernel.dK_dDelta_matrix`: same block layout as `dK_dl_matrix` with
the Delta-derivative hooks. -/
noncomputable def dK_dDelta_matrix {m : ℕ} {σ : Type} (H : FPHooks m σ) (w : ℚ)
    (x1 x2 : FPoint σ) : Matrix (BIdx m) (BIdx m) ℝ :=
  fun p q =>
    (match p, q with
     | .inl _, .inl _ => H.dk_dDelta x1 x2
     | .inr ia, .inl _ => H.dk_drm_dDelta x1 x2 ia.1 ia.2
     | .inl _, .inr ia => H.dk_drm_dDelta x2 x1 ia.1 ia.2
     | .inr ia, .inr jb => H.dk_drm_drn_dDelta x1 x2 ia.1 jb.1 ia.2 jb.2)
    * (w : ℝ) ^ 2

/-- `FPKernel.dK_dDelta`: `np.block` of `dK_dDelta_matrix` over every
ordered pair, with the same `self.D` and `self.weight` reads as `dK_dl`. -/
noncomputable def dK_dDeltaE {m n : ℕ} {σ : Type} (H : FPHooks m σ) (s : FPState)
    (X : Fin n → FPoint σ) :
    Except PyErr (Matrix (Fin n × BIdx m) (Fin n × BIdx m) ℝ) :=
  match s.D with
  | none => .error .attributeError
  | some D =>
    if D = 3 * m then
      match s.weight with
      | none => .error .attributeError
      | some w => .ok (fun p q => dK_dDelta_matrix H w (X p.1) (X q.1) p.2 q.2)
    else .error .valueError

/-- `FPKernel.gradient`: the `set_fp_params` loop (skipped when `X` is
empty, in which case `dK_dweight`'s `kernel_matrix` hits `X[0]`), then
`[self.dK_dweight(X), self.dK_dl(X), self.dK_dDelta(X)]` in order, on the
points mutated by the loop; `kernel_matrix` inside `dK_dweight` has set
`self.D = 3 * m` by the time `dK_dl` runs. -/
noncomputable def gradientE {m n : ℕ} {σ : Type} (H : FPHooks m σ) (W : ℕ)
    (junk : ℕ → Fin m → Fin 3 → ℝ) (s : FPState) (X : Fin n → FPoint σ) :
    Except PyErr (List (Matrix (Fin n × BIdx m) (Fin n × BIdx m) ℝ)) :=
  if n = 0 then .error .indexError
  else
    match s.params with
    | none => .error .attributeError
    | some ps =>
      match dK_dweightE H W junk s (fun i => set_fp_params ps (X i)) with
      | .error e => .error e
      | .ok g1 =>
        match dK_dlE H { s with D := some (3 * m) } (fun i => set_fp_params ps (X i)) with
        | .error e => .error e
        | .ok g2 =>
          match dK_dDeltaE H { s with D := some (3 * m) }
              (fun i => set_fp_params ps (X i)) with
          | .error e => .error e
          | .ok g3 => .ok [g1, g2, g3]

end FPK

/-! ### FPKernelNoforces (fingerprint kernel without forces) -/

namespace FPNF

/-- `FPKernelNoforces.kernel` once the parameters check out:
`np.atleast_1d(x1.kernel(x1, x2)) * self.params.get('weight') ** 2`, a
one-element array holding the scalar below. -/
noncomputable def kernelV {m : ℕ} {σ : Type} (H : FPHooks m σ) (w : ℚ)
    (x1 x2 : FPoint σ) : ℝ :=
  H.kernel x1 x1 x2 * (w : ℝ) ^ 2

/-- `FPKernelNoforces.kernel` with its accesses in source order: the
descriptor hook is called first, then `self.params.get('weight')` is read. -/
noncomputable def kernelE {m : ℕ} {σ : Type} (H : FPHooks m σ) (s : FPState)
    (x1 x2 : FPoint σ) : Except PyErr ℝ :=
  match s.params with
  | none => .error .attributeError
  | some ps =>
    match dictGet ps "weight" with
    | none => .error .typeError
    | some w => .ok (kernelV H w x1 x2)

/-- The matrix the loops of `FPKernelNoforces.kernel_matrix` build on the
points already synchronised by `set_fp_params`: upper triangle pairwise,
lower triangle the mirrored transpose, diagonal the self kernels. -/
noncomputable def buildK {m n : ℕ} {σ : Type} (H : FPHooks m σ) (w : ℚ) (ps : Dict)
    (X : Fin n → FPoint σ) : Matrix (Fin n) (Fin n) ℝ :=
  fun i j =>
    if i = j then kernelV H w (set_fp_params ps (X i)) (set_fp_params ps (X i))
    else if i < j then kernelV H w (set_fp_params ps (X i)) (set_fp_params ps (X j))
    else kernelV H w (set_fp_params ps (X j)) (set_fp_params ps (X i))

/-- `FPKernelNoforces.kernel_matrix`: `K = np.identity(n)`; for `n = 0`
every loop is empty and the identity is returned with the assert passing
vacuously; otherwise the `set_fp_params` loop reads `self.params`, each
kernel call needs the `weight` key, the upper triangle is mirrored, the
diagonal gets the self kernels, and `assert (K == K.T).all()` raises
`AssertionError` unless the result is exactly symmetric. -/
noncomputable def kernel_matrixE {m n : ℕ} {σ : Type} (H : FPHooks m σ)
    (s : FPState) (X : Fin n → FPoint σ) :
    Except PyErr (Matrix (Fin n) (Fin n) ℝ) :=
  if n = 0 then .ok 1
  else
    match s.params with
    | none => .error .attributeError
    | some ps =>
      match dictGet ps "weight" with
      | none => .error .typeError
      | some w =>
        @ite _ (Matrix.transpose (buildK H w ps X) = buildK H w ps X)
          (Classical.propDecidable _)
          (.ok (buildK H w ps X)) (.error .assertionError)

end FPNF

/-! ### Concrete instances used by the claim witnesses and counterexamples -/

/-- The point `x1 = [0, 0, 0]` of the end-to-end example. -/
noncomputable def x1ex : Fin 3 → ℝ := ![0, 0, 0]

/-- The point `x2 = [1, 0, 0]` of the end-to-end example. -/
noncomputable def x2ex : Fin 3 → ℝ := ![1, 0, 0]

/-- The two-point training set `[x1, x2]` of the end-to-end example. -/
noncomputable def Xex : Fin 2 → Fin 3 → ℝ := ![x1ex, x2ex]

/-- A concrete one-atom fingerprint hook assignment: every capability
returns a constant. -/
noncomputable def hooksEx : FPHooks 1 Unit where
  kernel := fun _ _ _ => 3
  kernel_gradient := fun _ _ _ _ => 5
  kernel_hessian := fun _ _ _ _ _ _ => 7
  dk_dl := fun _ _ => 11
  d_dl_dk_drm := fun _ _ _ _ => 13
  d_dl_dk_drm_drn := fun _ _ _ _ _ _ => 17
  dk_dDelta := fun _ _ => 19
  dk_drm_dDelta := fun _ _ _ _ => 23
  dk_drm_drn_dDelta := fun _ _ _ _ _ _ => 29

/-- A concrete fingerprint point with empty parameter dictionary. -/
def fpEx : FPoint Unit := ⟨(), []⟩

/-- A concrete parameter dictionary holding only the weight. -/
def psEx : Dict := [("weight", 2)]

/-- The kernel state after `set_params({'weight': 2})` on a fresh
`FPKernel`: `self.params` filled, `self.weight` still missing. -/
def sEx : FPState := FPKernel.set_params FPKernel.initState psEx

/-- A concrete prior state for the `set_params` merge witness. -/
def sC10 : FPState := ⟨some [("weight", 1), ("l", 5)], none, none⟩

/-- A concrete argument dictionary for the `set_params` merge witness:
one key that overwrites, one that is new. -/
def dC10 : Dict := [("l", 7), ("Delta", 2)]

/-! ### Helper lemmas -/

/-- Over the reals, `norm(x1 - x2) ** 2` is exactly the sum of squared
differences, so `squared_distance` loses its square root. -/
theorem squared_distance_eq (l : ℝ) {D : ℕ} (x1 x2 : Fin D → ℝ) :
    squared_distance l x1 x2 = (∑ i, (x1 i - x2 i) ^ 2) / l ^ 2 := by
  unfold squared_distance
  rw [Real.sq_sqrt]
  positivity

/-- The squared distance of a point to itself vanishes. -/
theorem squared_distance_self (l : ℝ) {D : ℕ} (x : Fin D → ℝ) :
    squared_distance l x x = 0 := by
  rw [squared_distance_eq]
  simp

/-- The scalar kernel of a point with itself is `weight ** 2`. -/
theorem kernel_function_self (w l : ℝ) {D : ℕ} (x : Fin D → ℝ) :
    SqExp.kernel_function w l x x = w ^ 2 := by
  unfold SqExp.kernel_function
  rw [squared_distance_self]
  simp

/-- The self-pair block of `SquaredExponential.kernel` is symmetric. -/
theorem kernel_self_symm (w l : ℝ) {D : ℕ} (x : Fin D → ℝ) (p q : SIdx D) :
    SqExp.kernel w l x x p q = SqExp.kernel w l x x q p := by
  rcases p with p | i <;> rcases q with q | j <;>
    simp only [SqExp.kernel, SqExp.kernelPre, SqExp.kernel_function_gradient, sub_self,
      zero_div, neg_zero, zero_mul, mul_zero]
  by_cases h : i = j
  · subst h
    rfl
  · rw [if_neg h, if_neg (Ne.symm h)]

/-- `SquaredExponential.kernel_matrix` is exactly symmetric: off-diagonal
blocks are mirrored transposes by construction and the diagonal blocks are
symmetric. -/
theorem kernel_matrix_symm (w l : ℝ) {n D : ℕ} (X : Fin n → Fin D → ℝ) :
    Matrix.transpose (SqExp.kernel_matrix w l X) = SqExp.kernel_matrix w l X := by
  funext p q
  rcases p with ⟨i, a⟩
  rcases q with ⟨j, b⟩
  show SqExp.kernel_matrix w l X (j, b) (i, a) = SqExp.kernel_matrix w l X (i, a) (j, b)
  unfold SqExp.kernel_matrix
  by_cases hij : i = j
  · subst hij
    rw [if_pos rfl, if_pos rfl]
    exact kernel_self_symm w l (X i) b a
  · by_cases hlt : i < j
    · rw [if_neg (fun h => hij h.symm), if_neg (lt_asymm hlt), if_neg hij, if_pos hlt]
    · have hgt : j < i := lt_of_le_of_ne (not_lt.mp hlt) (Ne.symm hij)
      rw [if_neg (fun h => hij h.symm), if_pos hgt, if_neg hij, if_neg hlt]

/-- At `weight = 1`, `l = 1`, the self-pair block is the identity. -/
theorem kernel_self_one_one {D : ℕ} (x : Fin D → ℝ) :
    SqExp.kernel 1 1 x x = (1 : Matrix (SIdx D) (SIdx D) ℝ) := by
  funext p q
  have hkf : SqExp.kernel_function (1 : ℝ) 1 x x = 1 := by
    rw [kernel_function_self]
    norm_num
  show SqExp.kernelPre 1 x x p q * SqExp.kernel_function 1 1 x x = _
  rw [hkf, mul_one]
  rcases p with p | i <;> rcases q with q | j <;>
    simp [SqExp.kernelPre, SqExp.kernel_function_gradient, Matrix.one_apply]

/-! ### The claims -/

/-- Claim C1, as amended: for the vector squared-exponential kernel with
derivatives, the block assembled before the final elementwise
multiplication by the scalar kernel value has row
`block[0, 1:] = -kernel_function_gradient(x2, x1)` and column
`block[1:, 0] = -kernel_function_gradient(x1, x2)`
(equal to `kernel_function_gradient(x2, x1)`), where
`kernel_function_gradient(x1, x2) = (x1 - x2) / l ** 2`. -/
theorem C1_pair_block_gradient_rows (D : ℕ) (l : ℝ) (x1 x2 : Fin D → ℝ) :
    (∀ j, SqExp.kernelPre l x1 x2 (Sum.inl ()) (Sum.inr j) =
      -(SqExp.kernel_function_gradient l x2 x1 j)) ∧
    (∀ j, SqExp.kernelPre l x1 x2 (Sum.inr j) (Sum.inl ()) =
      -(SqExp.kernel_function_gradient l x1 x2 j)) := by
  refine ⟨fun j => ?_, fun j => rfl⟩
  show SqExp.kernel_function_gradient l x1 x2 j = _
  unfold SqExp.kernel_function_gradient
  ring

/-- Claim C1 as frozen is false: at `x1 = [0]`, `x2 = [1]`, `l = 1`, the
column entry `block[1, 0]` of the pre-multiplication block is `1`, while
`kernel_function_gradient(x1, x2)[0] = -1`. -/
theorem C1_column_sign_counterexample :
    ¬ SqExp.kernelPre 1 (fun _ : Fin 1 => 0) (fun _ : Fin 1 => 1) (Sum.inr 0) (Sum.inl ()) =
      SqExp.kernel_function_gradient 1 (fun _ : Fin 1 => 0) (fun _ : Fin 1 => 1) 0 := by
  show ¬ -((0 - 1 : ℝ) / 1 ^ 2) = (0 - 1 : ℝ) / 1 ^ 2
  norm_num

/-- Claim C4: for the vector squared-exponential kernel with derivatives,
`dK_dweight(X)` equals `2 * K(X, X) / weight` elementwise exactly, `K`
being the block matrix over all ordered pairs, whenever `weight ≠ 0`. -/
theorem C4_dK_dweight_scaling (n D : ℕ) (w l : ℝ) (_hw : w ≠ 0)
    (X : Fin n → Fin D → ℝ) :
    SqExp.dK_dweight w l X = fun p q => 2 * SqExp.K w l X X p q / w := by
  funext p q
  show SqExp.K w l X X p q * 2 / w = 2 * SqExp.K w l X X p q / w
  rw [mul_comm]

/-- Witness for C4 at `n = D = 1`, `weight = l = 1`, `X = [[0]]`. -/
theorem C4_dK_dweight_scaling_witness :
    SqExp.dK_dweight 1 1 (fun _ : Fin 1 => fun _ : Fin 1 => (0 : ℝ)) =
      fun p q => 2 * SqExp.K 1 1 (fun _ : Fin 1 => fun _ : Fin 1 => (0 : ℝ))
        (fun _ : Fin 1 => fun _ : Fin 1 => (0 : ℝ)) p q / 1 :=
  C4_dK_dweight_scaling 1 1 1 1 one_ne_zero _

/-- Claim C9: `SE_kernel.dK_dl` multiplies the bound method object
`self.kernel` (not its result) by a float, so it raises `TypeError` on
every input and every state, and never returns a number. -/
theorem C9_dK_dl_always_type_error (D : ℕ) (s : SEState) (x1 x2 : Fin D → ℝ) :
    SE_kernel.dK_dlE s x1 x2 = .error .typeError := rfl

/-- Claim C3: with `weight = 1`, `l = 1`, `x1 = [0,0,0]`, `x2 = [1,0,0]`:
the scalar kernel value is `exp(-0.5)`; the assembled pair block has
column `[1:, 0] = [1, 0, 0] * exp(-0.5)`; and the assembled two-point
matrix (8 x 8 as `(Fin 2 × SIdx 3)`-indexed blocks) is symmetric with both
diagonal blocks equal to the 4 x 4 identity. -/
theorem C3_end_to_end_example :
    SqExp.kernel_function 1 1 x1ex x2ex = Real.exp (-(1 / 2)) ∧
    (∀ j : Fin 3, SqExp.kernel 1 1 x1ex x2ex (Sum.inr j) (Sum.inl ()) =
      ![1, 0, 0] j * Real.exp (-(1 / 2))) ∧
    Matrix.transpose (SqExp.kernel_matrix 1 1 Xex) = SqExp.kernel_matrix 1 1 Xex ∧
    (∀ (i : Fin 2) (a b : SIdx 3),
      SqExp.kernel_matrix 1 1 Xex (i, a) (i, b) = (1 : Matrix (SIdx 3) (SIdx 3) ℝ) a b) := by
  have hsd : squared_distance (1 : ℝ) x1ex x2ex = 1 := by
    rw [squared_distance_eq]
    simp [x1ex, x2ex, Fin.sum_univ_three]
  have hkf : SqExp.kernel_function 1 1 x1ex x2ex = Real.exp (-(1 / 2)) := by
    unfold SqExp.kernel_function
    rw [hsd]
    norm_num
  refine ⟨hkf, fun j => ?_, kernel_matrix_symm 1 1 Xex, fun i a b => ?_⟩
  · show SqExp.kernelPre 1 x1ex x2ex (Sum.inr j) (Sum.inl ()) *
      SqExp.kernel_function 1 1 x1ex x2ex = _
    rw [hkf]
    congr 1
    show -((x1ex j - x2ex j) / (1 : ℝ) ^ 2) = _
    fin_cases j <;> norm_num [x1ex, x2ex]
  · have hd : SqExp.kernel_matrix 1 1 Xex (i, a) (i, b) =
        SqExp.kernel 1 1 (Xex i) (Xex i) a b := by
      unfold SqExp.kernel_matrix
      rw [if_pos rfl]
    rw [hd, kernel_self_one_one]

/-- The matrix the `FPKernelNoforces.kernel_matrix` loops build is exactly
symmetric, whatever the descriptor hooks return. -/
theorem FPNF.buildK_symm {m n : ℕ} {σ : Type} (H : FPHooks m σ) (w : ℚ) (ps : Dict)
    (X : Fin n → FPoint σ) :
    Matrix.transpose (FPNF.buildK H w ps X) = FPNF.buildK H w ps X := by
  funext i j
  show FPNF.buildK H w ps X j i = FPNF.buildK H w ps X i j
  unfold FPNF.buildK
  by_cases hij : i = j
  · subst hij
    rfl
  · by_cases hlt : i < j
    · rw [if_neg (fun h => hij h.symm), if_neg (lt_asymm hlt), if_neg hij, if_pos hlt]
    · have hgt : j < i := lt_of_le_of_ne (not_lt.mp hlt) (Ne.symm hij)
      rw [if_neg (fun h => hij h.symm), if_pos hgt, if_neg hij, if_neg hlt]

/-- In the non-degenerate configured case, `FPKernelNoforces.kernel_matrix`
returns the assembled matrix: its symmetry assertion passes. -/
theorem FPNF.kernel_matrixE_eq {m n : ℕ} {σ : Type} (H : FPHooks m σ) (s : FPState)
    (ps : Dict) (w : ℚ) (X : Fin n → FPoint σ) (hn : n ≠ 0)
    (hps : s.params = some ps) (hwk : dictGet ps "weight" = some w) :
    FPNF.kernel_matrixE H s X = .ok (FPNF.buildK H w ps X) := by
  unfold FPNF.kernel_matrixE
  rw [if_neg hn]
  simp only [hps, hwk]
  rw [if_pos (FPNF.buildK_symm H w ps X)]

/-- Claim C5: for every point set, `SquaredExponential.kernel_matrix` is
exactly equal to its transpose (hence within any floating tolerance), and
`FPKernelNoforces.kernel_matrix` returns an exactly symmetric matrix with
its post-construction symmetry assertion never failing. -/
theorem C5_kernel_matrix_symmetry :
    (∀ (n D : ℕ) (w l : ℝ) (X : Fin n → Fin D → ℝ),
      Matrix.transpose (SqExp.kernel_matrix w l X) = SqExp.kernel_matrix w l X) ∧
    (∀ (m n : ℕ) (σ : Type) (H : FPHooks m σ) (s : FPState) (X : Fin n → FPoint σ),
      match FPNF.kernel_matrixE H s X with
      | .ok K => Matrix.transpose K = K
      | .error e => e ≠ PyErr.assertionError) := by
  refine ⟨fun n D w l X => kernel_matrix_symm w l X, fun m n σ H s X => ?_⟩
  by_cases hn : n = 0
  · have h0 : FPNF.kernel_matrixE H s X = .ok 1 := by
      unfold FPNF.kernel_matrixE
      rw [if_pos hn]
    rw [h0]
    exact Matrix.transpose_one
  · rcases hps : s.params with _ | ps
    · have he : FPNF.kernel_matrixE H s X = .error .attributeError := by
        unfold FPNF.kernel_matrixE
        rw [if_neg hn]
        simp only [hps]
      rw [he]
      simp
    · rcases hwk : dictGet ps "weight" with _ | w
      · have he : FPNF.kernel_matrixE H s X = .error .typeError := by
          unfold FPNF.kernel_matrixE
          rw [if_neg hn]
          simp only [hps, hwk]
        rw [he]
        simp
      · rw [FPNF.kernel_matrixE_eq H s ps w X hn hps hwk]
        exact FPNF.buildK_symm H w ps X

/-- Claim C6: on a single-point training set, the derivative-aware
`kernel_matrix` is exactly the self-pair block `kernel(x, x)`, and the
value-only `FPKernelNoforces.kernel_matrix` returns the 1 x 1 matrix
`[descriptor_self_kernel * weight ** 2]` (on the parameter-synchronised
point). -/
theorem C6_single_point (D : ℕ) (w l : ℝ) (x : Fin D → ℝ)
    {m : ℕ} {σ : Type} (H : FPHooks m σ) (s : FPState) (ps : Dict) (wq : ℚ)
    (hps : s.params = some ps) (hwk : dictGet ps "weight" = some wq)
    (xf : FPoint σ) :
    (∀ p q : Fin 1 × SIdx D,
      SqExp.kernel_matrix w l (fun _ : Fin 1 => x) p q = SqExp.kernel w l x x p.2 q.2) ∧
    FPNF.kernel_matrixE H s (fun _ : Fin 1 => xf) =
      .ok (fun _ _ => FPNF.kernelV H wq (set_fp_params ps xf) (set_fp_params ps xf)) := by
  constructor
  · intro p q
    unfold SqExp.kernel_matrix
    rw [if_pos (Subsingleton.elim p.1 q.1)]
  · rw [FPNF.kernel_matrixE_eq H s ps wq (fun _ : Fin 1 => xf) one_ne_zero hps hwk]
    congr 1
    funext i j
    unfold FPNF.buildK
    rw [if_pos (Subsingleton.elim i j)]

/-- Witness for C6 at a concrete one-atom fingerprint configuration with
`params = {'weight': 2}`. -/
theorem C6_single_point_witness :
    (∀ p q : Fin 1 × SIdx 1,
      SqExp.kernel_matrix 1 1 (fun _ : Fin 1 => fun _ : Fin 1 => (0 : ℝ)) p q =
        SqExp.kernel 1 1 (fun _ : Fin 1 => (0 : ℝ)) (fun _ : Fin 1 => (0 : ℝ)) p.2 q.2) ∧
    FPNF.kernel_matrixE hooksEx sEx (fun _ : Fin 1 => fpEx) =
      .ok (fun _ _ => FPNF.kernelV hooksEx 2 (set_fp_params psEx fpEx)
        (set_fp_params psEx fpEx)) :=
  C6_single_point 1 1 1 (fun _ : Fin 1 => (0 : ℝ)) hooksEx sEx psEx 2
    (by decide) (by decide) fpEx

/-- Claim C7: on the freshly constructed state of each concrete kernel
variant (no successful `set_params` yet), `kernel(x1, x2)` raises rather
than returning a value: `SE_kernel` and the fingerprint kernels raise
`AttributeError` at the first missing attribute, `SquaredExponential`
raises `TypeError` on `self.D + 1` when no dimensionality was given and
`AttributeError` on `self.l` otherwise. -/
theorem C7_kernel_before_set_params_raises :
    (∀ (D : ℕ) (x1 x2 : Fin D → ℝ),
      SE_kernel.kernelE SE_kernel.initState x1 x2 = .error .attributeError) ∧
    (∀ (dim : Option ℕ) (d : ℕ) (x1 x2 : Fin d → ℝ),
      ∃ e, SqExp.kernelE (SquaredExponential.initState dim) x1 x2 = .error e) ∧
    (∀ (m : ℕ) (σ : Type) (H : FPHooks m σ) (W : ℕ) (junk : ℕ → Fin m → Fin 3 → ℝ)
      (x1 x2 : FPoint σ),
      FPK.kernelE H W junk FPKernel.initState x1 x2 = .error .attributeError) ∧
    (∀ (m : ℕ) (σ : Type) (H : FPHooks m σ) (x1 x2 : FPoint σ),
      FPNF.kernelE H FPKernel.initState x1 x2 = .error .attributeError) := by
  refine ⟨fun D x1 x2 => rfl, fun dim d x1 x2 => ?_, fun m σ H W junk x1 x2 => rfl,
    fun m σ H x1 x2 => rfl⟩
  cases dim with
  | none => exact ⟨.typeError, rfl⟩
  | some D0 => exact ⟨.attributeError, rfl⟩

/-- The result of the distributed gradient of `FPKernel`, after the
broadcasts, is the hook values: independent of the worker count, of the
rank, and of the uninitialised `np.empty` contents. -/
theorem FPK.kernel_function_gradient_eq {m : ℕ} {σ : Type} (H : FPHooks m σ)
    (W : ℕ) (junk : ℕ → Fin m → Fin 3 → ℝ) (x1 x2 : FPoint σ) :
    FPK.kernel_function_gradient H W junk x1 x2 =
      fun i a => H.kernel_gradient x1 x2 i a := by
  funext i a
  unfold FPK.kernel_function_gradient FPK.gradientsLocal
  rw [if_pos rfl]

/-- The result of the distributed hessian of `FPKernel`, after the
broadcasts, is the hook values: independent of the worker count and rank. -/
theorem FPK.kernel_function_hessian_eq {m : ℕ} {σ : Type} (H : FPHooks m σ)
    (W : ℕ) (x1 x2 : FPoint σ) :
    FPK.kernel_function_hessian H W x1 x2 =
      fun i j a b => H.kernel_hessian x1 x2 i j a b := by
  funext i j a b
  unfold FPK.kernel_function_hessian FPK.hessianLocal
  rw [if_pos rfl]

/-- The reconciled pair block of `FPKernel.kernel` does not depend on the
worker count or the uninitialised buffer contents. -/
theorem FPK.kernelBlock_invariant {m : ℕ} {σ : Type} (H : FPHooks m σ)
    (W1 W2 : ℕ) (junk1 junk2 : ℕ → Fin m → Fin 3 → ℝ) (w : ℚ) (x1 x2 : FPoint σ) :
    FPK.kernelBlock H W1 junk1 w x1 x2 = FPK.kernelBlock H W2 junk2 w x1 x2 := by
  funext p q
  unfold FPK.kernelBlock
  rcases p with p | ia <;> rcases q with q | jb <;>
    simp only [FPK.kernel_function_gradient_eq, FPK.kernel_function_hessian_eq]

/-- `FPKernel.kernel_matrix` gives the same outcome (value or exception)
for every worker count and every `np.empty` buffer content. -/
theorem FPK.kernel_matrixE_invariant {m n : ℕ} {σ : Type} (H : FPHooks m σ)
    (s : FPState) (W1 W2 : ℕ) (junk1 junk2 : ℕ → Fin m → Fin 3 → ℝ)
    (X : Fin n → FPoint σ) :
    FPK.kernel_matrixE H W1 junk1 s X = FPK.kernel_matrixE H W2 junk2 s X := by
  unfold FPK.kernel_matrixE
  simp only [FPK.kernelBlock_invariant H W1 W2 junk1 junk2]

/-- Claim C8: for a fixed fingerprint training set and state, the full
matrix of `FPKernel.kernel_matrix` and the outcome of `FPKernel.gradient`
are identical for any two worker counts (covering W = 1, 2, 5) and any
uninitialised buffer contents; after the broadcasts every rank holds this
one result. -/
theorem C8_worker_count_invariance (m n : ℕ) (σ : Type) (H : FPHooks m σ)
    (s : FPState) (X : Fin n → FPoint σ) (W1 W2 : ℕ)
    (junk1 junk2 : ℕ → Fin m → Fin 3 → ℝ) :
    FPK.kernel_matrixE H W1 junk1 s X = FPK.kernel_matrixE H W2 junk2 s X ∧
    FPK.gradientE H W1 junk1 s X = FPK.gradientE H W2 junk2 s X := by
  refine ⟨FPK.kernel_matrixE_invariant H s W1 W2 junk1 junk2 X, ?_⟩
  unfold FPK.gradientE FPK.dK_dweightE
  simp only [FPK.kernel_matrixE_invariant H s W1 W2 junk1 junk2]

/-- Looking a key up after a single dict assignment. -/
theorem dictGet_dictSet (m0 : Dict) (k0 : String) (v : ℚ) (k : String) :
    dictGet (dictSet m0 k0 v) k = if k = k0 then some v else dictGet m0 k := by
  induction m0 with
  | nil => rfl
  | cons hd tl ih =>
      obtain ⟨k1, v1⟩ := hd
      by_cases h1 : k1 = k0 <;> by_cases hk : k = k1 <;> by_cases hk0 : k = k0 <;>
        simp_all [dictSet, dictGet]

/-- A key that is bound nowhere in a dict looks up to `none`. -/
theorem dictGet_eq_none_of_not_mem (m0 : Dict) (k : String)
    (h : k ∉ m0.map Prod.fst) : dictGet m0 k = none := by
  induction m0 with
  | nil => rfl
  | cons hd tl ih =>
      obtain ⟨k1, v1⟩ := hd
      simp only [List.map_cons, List.mem_cons, not_or] at h
      show (if k = k1 then some v1 else dictGet tl k) = none
      rw [if_neg h.1]
      exact ih h.2

/-- Folding the assignments of a duplicate-free dict `d` over a prior dict
`acc` gives a dict in which `d`'s bindings win and `acc`'s survive
elsewhere. -/
theorem dictGet_foldl (d : Dict) : ∀ acc : Dict, (d.map Prod.fst).Nodup →
    ∀ k, dictGet (d.foldl (fun a kv => dictSet a kv.1 kv.2) acc) k =
      (dictGet d k).or (dictGet acc k) := by
  induction d with
  | nil =>
      intro acc _ k
      rfl
  | cons hd tl ih =>
      intro acc hnd k
      obtain ⟨k1, v1⟩ := hd
      simp only [List.map_cons, List.nodup_cons] at hnd
      show dictGet (tl.foldl (fun a kv => dictSet a kv.1 kv.2) (dictSet acc k1 v1)) k = _
      rw [ih (dictSet acc k1 v1) hnd.2 k, dictGet_dictSet]
      show Option.or (dictGet tl k) (if k = k1 then some v1 else dictGet acc k) =
        Option.or (if k = k1 then some v1 else dictGet tl k) (dictGet acc k)
      by_cases hk : k = k1
      · have hnone : dictGet tl k = none := by
          rw [hk]
          exact dictGet_eq_none_of_not_mem tl k1 hnd.1
        rw [hnone, if_pos hk, if_pos hk]
        rfl
      · rw [if_neg hk, if_neg hk]

/-- Claim C10: `FPKernel.set_params` merges the argument dictionary into the
stored one (creating it on first call): argument keys are overwritten,
other keys keep their previous values. -/
theorem C10_set_params_merges (s : FPState) (d : Dict)
    (hnd : (d.map Prod.fst).Nodup) (k : String) :
    ∃ ps, (FPKernel.set_params s d).params = some ps ∧
      dictGet ps k = (dictGet d k).or (dictGet (s.params.getD []) k) :=
  ⟨_, rfl, dictGet_foldl d _ hnd k⟩

/-- Witness for C10: prior dict `{'weight': 1, 'l': 5}` merged with
`{'l': 7, 'Delta': 2}`, looked up at the overwritten key. -/
theorem C10_set_params_merges_witness :
    ∃ ps, (FPKernel.set_params sC10 dC10).params = some ps ∧
      dictGet ps "l" = (dictGet dC10 "l").or (dictGet (sC10.params.getD []) "l") :=
  C10_set_params_merges sC10 dC10 (by decide) "l"

/-- Claim C2 fails on the code (`code_bug`): with parameters set only
through the dictionary-based `set_params` (which never assigns
`self.weight`), `FPKernel.gradient(X)` raises `AttributeError` inside
`dK_dweight` instead of returning the three derivative matrices its own
docstring promises. -/
theorem C2_gradient_raises (m n : ℕ) (σ : Type) (H : FPHooks m σ) (W : ℕ)
    (junk : ℕ → Fin m → Fin 3 → ℝ) (s : FPState) (ps : Dict) (w : ℚ)
    (hps : s.params = some ps) (hwk : dictGet ps "weight" = some w)
    (hwa : s.weight = none) (X : Fin (n + 1) → FPoint σ) :
    FPK.gradientE H W junk s X = .error .attributeError := by
  have hkm : FPK.kernel_matrixE H W junk s (fun i => set_fp_params ps (X i)) =
      .ok (fun p q =>
        if p.1 = q.1 then
          FPK.kernelBlock H W junk w (set_fp_params ps (set_fp_params ps (X p.1)))
            (set_fp_params ps (set_fp_params ps (X p.1))) p.2 q.2
        else if p.1 < q.1 then
          FPK.kernelBlock H W junk w (set_fp_params ps (set_fp_params ps (X p.1)))
            (set_fp_params ps (set_fp_params ps (X q.1))) p.2 q.2
        else
          FPK.kernelBlock H W junk w (set_fp_params ps (set_fp_params ps (X q.1)))
            (set_fp_params ps (set_fp_params ps (X p.1))) q.2 p.2) := by
    unfold FPK.kernel_matrixE
    rw [if_neg (Nat.succ_ne_zero n)]
    simp only [hps, hwk]
  have hdw : FPK.dK_dweightE H W junk s (fun i => set_fp_params ps (X i)) =
      .error .attributeError := by
    unfold FPK.dK_dweightE
    rw [hkm]
    simp only [hwa]
  unfold FPK.gradientE
  rw [if_neg (Nat.succ_ne_zero n)]
  simp only [hps, hdw]

/-- Witness for C2 at one atom, constant hooks, one training point and
`set_params({'weight': 2})`. -/
theorem C2_gradient_raises_witness :
    FPK.gradientE hooksEx 1 (fun _ _ _ => 0) sEx (fun _ : Fin 1 => fpEx) =
      .error .attributeError :=
  C2_gradient_raises 1 0 Unit hooksEx 1 (fun _ _ _ => 0) sEx psEx 2
    (by decide) (by decide) (by decide) (fun _ : Fin 1 => fpEx)

end ASEGpfp
